import Mathlib

/-!
# Verification of the mini-data-platform CSV ingest / reporting core

Shallow embedding of `src/backend/metrics/views.py` (row parsing, validation,
the CSV import pipeline, the quality report's out-of-range counts, and the
summary aggregator) together with the persistence model of
`src/backend/metrics/models.py` / `src/metrics/models.py`.

Modelling conventions:
* Python floats are modelled as rationals (`ℚ`); the decimal-literal grammar of
  `float(...)` is modelled for finite decimal/scientific literals (the
  non-finite literals `nan`/`inf` and digit-group underscores are outside the
  rational model).
* Python strings are Lean `String`s; `str.strip()` is modelled character-wise
  (`pystrip`) so that all definitions reduce in the kernel.
* `datetime.strptime(value, "%Y-%m-%d")` is modelled by `strptimeYMD`:
  1–4 digit year, 1–2 digit month/day fields separated by `-`, validated as a
  real calendar date (year 1–9999, proper month lengths, Gregorian leap years).
* Database tables are association lists in deterministic order; timestamps are
  abstract `Nat` clock values.
* All functions are total Lean functions returning `Option`/`Except` where the
  Python uses `try/except` — "never raises" is represented by totality.
-/

namespace MDP

/-! ## Python string primitives -/

/-- The whitespace characters stripped by Python's `str.strip()`
(ASCII subset: space, tab, newline, carriage return, vertical tab, form feed). -/
def isPyWhitespace (c : Char) : Bool :=
  c = ' ' || c = '\t' || c = '\n' || c = '\r' || c = '\x0b' || c = '\x0c'

/-- Strip `isPyWhitespace` characters from both ends of a character list. -/
def trimChars (cs : List Char) : List Char :=
  ((cs.dropWhile isPyWhitespace).reverse.dropWhile isPyWhitespace).reverse

/-- Model of Python `str.strip()`. -/
def pystrip (s : String) : String :=
  String.mk (trimChars s.data)

/-! ## Date parsing: model of `datetime.strptime(value, "%Y-%m-%d").date()` -/

/-- A calendar date as produced by `datetime.date`. -/
structure CalDate where
  year : Nat
  month : Nat
  day : Nat
deriving DecidableEq

/-- Split a character list at `-` separators (model of `str.split("-")`
restricted to what `"%Y-%m-%d"` needs). -/
def splitDashAux : List Char → List Char → List (List Char)
  | [], acc => [acc.reverse]
  | '-' :: rest, acc => acc.reverse :: splitDashAux rest []
  | c :: rest, acc => splitDashAux rest (c :: acc)

def splitDash (cs : List Char) : List (List Char) :=
  splitDashAux cs []

/-- Numeric value of a list of decimal digit characters. -/
def digitsVal (ds : List Char) : Nat :=
  ds.foldl (fun a c => a * 10 + (c.toNat - 48)) 0

/-- A `strptime` numeric field: between 1 and `maxLen` decimal digits. -/
def fieldNat (maxLen : Nat) (ds : List Char) : Option Nat :=
  if 1 ≤ ds.length ∧ ds.length ≤ maxLen ∧ ds.all Char.isDigit then
    some (digitsVal ds)
  else
    none

/-- Gregorian leap-year rule (as used by `datetime`). -/
def isLeap (y : Nat) : Bool :=
  y % 4 = 0 && (y % 100 ≠ 0 || y % 400 = 0)

/-- Number of days in a month (as enforced by `datetime.date`). -/
def daysInMonth (y m : Nat) : Nat :=
  if m = 2 then (if isLeap y then 29 else 28)
  else if m = 4 ∨ m = 6 ∨ m = 9 ∨ m = 11 then 30
  else 31

/-- The calendar-date validity check performed by `datetime.date(y, m, d)`:
year in `MINYEAR..MAXYEAR`, month `1..12`, day within the month. -/
def validYMD (y m d : Nat) : Bool :=
  1 ≤ y && y ≤ 9999 && 1 ≤ m && m ≤ 12 && 1 ≤ d && d ≤ daysInMonth y m

/-- Model of `datetime.strptime(s, "%Y-%m-%d").date()` on an already-stripped
string: returns `none` exactly where CPython raises `ValueError`. -/
def strptimeYMD (s : String) : Option CalDate :=
  match splitDash s.data with
  | [ys, ms, ds] =>
    match fieldNat 4 ys, fieldNat 2 ms, fieldNat 2 ds with
    | some y, some m, some d => if validYMD y m d then some ⟨y, m, d⟩ else none
    | _, _, _ => none
  | _ => none

/-- Model of `views._parse_date`: `None` stays absent, the cell is stripped, a blank
cell is absent, and a `strptime` failure is caught and becomes absent. -/
def parse_date (value : Option String) : Option CalDate :=
  match value with
  | none => none
  | some v =>
    let v := pystrip v
    if v = "" then none else strptimeYMD v

/-- Model of `views._parse_iso_date` (textually identical to `_parse_date` in the
source; duplicated there, duplicated here). -/
def parse_iso_date (value : Option String) : Option CalDate :=
  match value with
  | none => none
  | some v =>
    let v := pystrip v
    if v = "" then none else strptimeYMD v

/-! ## Float parsing: model of Python `float(value)` on decimal literals -/

/-- Take the longest prefix of decimal digits. -/
def spanDigits : List Char → List Char × List Char
  | [] => ([], [])
  | c :: rest =>
    if c.isDigit then
      let (ds, r) := spanDigits rest
      (c :: ds, r)
    else
      ([], c :: rest)

/-- Consume an optional sign; returns (isNegative, rest). -/
def takeSign : List Char → Bool × List Char
  | '+' :: rest => (false, rest)
  | '-' :: rest => (true, rest)
  | cs => (false, cs)

/-- Model of CPython `float(s)` for finite decimal literals
`[sign] (digits [. digits] | . digits) [(e|E) [sign] digits]`.
(`nan`/`inf`/`infinity` and `_` digit separators are outside the rational
model; every string this parser accepts, `float` also accepts, with the same
mathematical value.) The value `intpart.fracpart × 10^exp` is assembled as a
single normalized rational. -/
def parseFloatLit (s : String) : Option ℚ :=
  let (neg, cs) := takeSign s.data
  let (ip, cs) := spanDigits cs
  let (fp, cs) :=
    match cs with
    | '.' :: r => spanDigits r
    | r => ([], r)
  if ip.isEmpty ∧ fp.isEmpty then none
  else
    let mantNum : Int := Int.ofNat (digitsVal (ip ++ fp))
    let num : Int := if neg then -mantNum else mantNum
    let fracLen : Nat := fp.length
    match cs with
    | [] => some (mkRat num (10 ^ fracLen))
    | e :: r =>
      if e = 'e' ∨ e = 'E' then
        let (eneg, r) := takeSign r
        let (eds, r) := spanDigits r
        if eds.isEmpty ∨ ¬r.isEmpty then none
        else
          let ev := digitsVal eds
          if eneg then some (mkRat num (10 ^ (fracLen + ev)))
          else some (mkRat (num * Int.ofNat (10 ^ ev)) (10 ^ fracLen))
      else none

/-- Model of `views._parse_float`: `None` stays absent, the cell is stripped, a blank
cell is absent, and a `float(...)` failure is caught and becomes absent. -/
def parse_float (value : Option String) : Option ℚ :=
  match value with
  | none => none
  | some v =>
    let v := pystrip v
    if v = "" then none else parseFloatLit v

/-! ## Row validation: `views._validate_row` -/

def TEMP_MIN_C : ℚ := -60
def TEMP_MAX_C : ℚ := 60
def PRECIP_MIN_MM : ℚ := 0
def PRECIP_MAX_MM : ℚ := 500

/-- Model of `views._validate_row(date, station_id, temp_c, precip_mm)`:
returns `(is_valid, errors)`, appending one rule name per violated rule and
declaring the row valid iff the error list is empty. -/
def validate_row (date : Option CalDate) (station_id : Option String)
    (temp_c precip_mm : Option ℚ) : Bool × List String :=
  let errors : List String :=
    (match date with
      | none => ["invalid_date"]
      | some _ => [])
    ++ (match station_id with
      | none => ["missing_station_id"]
      | some s => if pystrip s = "" then ["missing_station_id"] else [])
    ++ (match temp_c with
      | none => ["invalid_temp_c"]
      | some t => if t < TEMP_MIN_C ∨ t > TEMP_MAX_C then ["temp_c_out_of_range"] else [])
    ++ (match precip_mm with
      | none => ["invalid_precip_mm"]
      | some p => if p < PRECIP_MIN_MM ∨ p > PRECIP_MAX_MM then ["precip_mm_out_of_range"] else [])
  (errors.isEmpty, errors)

/-! ## Data model

`Measurement` (`src/metrics/models.py`): unique natural key `(station_id, date)`,
value columns `temp_c` / `precip_mm`, audit columns `created_at` / `updated_at`
(`auto_now_add` / `auto_now`, modelled as abstract `Nat` clock readings; the
superseding `src/backend/metrics/models.py` revision drops the two audit
columns but is otherwise identical in the fields the import writes).
`StagingMeasurement`: all four data fields nullable, plus `loaded_at`. -/

structure MRow where
  station_id : String
  date : CalDate
  temp_c : ℚ
  precip_mm : ℚ
  created_at : Nat
  updated_at : Nat
deriving DecidableEq

structure SRow where
  date : Option CalDate
  station_id : Option String
  temp_c : Option ℚ
  precip_mm : Option ℚ
  loaded_at : Nat
deriving DecidableEq

/-- The two persisted tables, in deterministic storage order. -/
structure DBState where
  measurements : List MRow
  staging : List SRow
deriving DecidableEq

/-- The natural key of a Measurement row. -/
def mkey (m : MRow) : String × CalDate :=
  (m.station_id, m.date)

/-! ## Upsert Engine

`Measurement.objects.bulk_create(rows, update_conflicts=True,
unique_fields=["station_id", "date"], update_fields=["temp_c", "precip_mm"])`:
each submitted row either inserts (new key) or updates exactly the conflicting
row's `temp_c`/`precip_mm` (later rows in one batch win over earlier ones).
Columns outside `update_fields` — in particular `updated_at` — are not touched
on the conflict path; on the insert path `auto_now_add`/`auto_now` stamp the
current clock. -/

def setVals (m r : MRow) : MRow :=
  { m with temp_c := r.temp_c, precip_mm := r.precip_mm }

def upsertOne (t : List MRow) (r : MRow) : List MRow :=
  if t.any (fun m => mkey m = mkey r) then
    t.map (fun m => if mkey m = mkey r then setVals m r else m)
  else
    t ++ [r]

def upsertBatch (t : List MRow) (rs : List MRow) : List MRow :=
  rs.foldl upsertOne t

/-- Does the table contain a row with natural key `k`? -/
def hasKey (t : List MRow) (k : String × CalDate) : Bool :=
  t.any (fun m => mkey m = k)

/-- The stored row with natural key `k` (first in storage order; under the
unique constraint there is at most one). -/
def lookupRow (t : List MRow) (k : String × CalDate) : Option MRow :=
  t.find? (fun m => mkey m = k)

/-- The stored value columns at natural key `k`. -/
def lookupTP (t : List MRow) (k : String × CalDate) : Option (ℚ × ℚ) :=
  (lookupRow t k).map (fun m => (m.temp_c, m.precip_mm))

/-! ## Row Parser and Import Orchestrator

`import_csv` (mirrored by `load_sample_data.Command.handle`, which carries the
loop body elided in `views.import_csv`): for every data row, parse the four
cells, always build a staging row, build a Measurement candidate iff the row
validates; then, inside one `transaction.atomic()` block, truncate staging,
bulk-insert the staged batch, and bulk-upsert the valid batch. -/

/-- One raw CSV record: the four cells as read by `csv.DictReader`
(a missing column yields `None`). -/
structure RawRow where
  date : Option String
  station_id : Option String
  temp_c : Option String
  precip_mm : Option String
deriving DecidableEq

structure ParsedRow where
  date : Option CalDate
  station_id : Option String
  temp_c : Option ℚ
  precip_mm : Option ℚ
deriving DecidableEq

/-- Model of `(raw.get("station_id") or "").strip() or None`. -/
def normStation (v : Option String) : Option String :=
  let t := pystrip (v.getD "")
  if t = "" then none else some t

def parseRow (r : RawRow) : ParsedRow :=
  { date := parse_date r.date
    station_id := normStation r.station_id
    temp_c := parse_float r.temp_c
    precip_mm := parse_float r.precip_mm }

def isValidRowP (p : ParsedRow) : Bool :=
  (validate_row p.date p.station_id p.temp_c p.precip_mm).1

/-- The staging batch: one `StagingMeasurement(...)` per input row, valid or
not, in file order (`loaded_at` from `auto_now_add`). -/
def stagedBatch (f : List RawRow) (now : Nat) : List SRow :=
  f.map (fun r =>
    let p := parseRow r
    ⟨p.date, p.station_id, p.temp_c, p.precip_mm, now⟩)

/-- The parsed rows that validate, in file order. -/
def validParsed (f : List RawRow) : List ParsedRow :=
  (f.map parseRow).filter isValidRowP

/-- The natural key of a valid parsed row (validity guarantees the fields are
present; `getD` defaults are never reached on valid rows). -/
def pkey (p : ParsedRow) : String × CalDate :=
  (p.station_id.getD "", p.date.getD ⟨1, 1, 1⟩)

/-- Candidate `Measurement(date=date, station_id=station_id, temp_c=temp_c,
precip_mm=precip_mm)` built for a valid row; `created_at`/`updated_at` are
stamped at insert time. -/
def measurementOf (p : ParsedRow) (now : Nat) : MRow :=
  { station_id := p.station_id.getD ""
    date := p.date.getD ⟨1, 1, 1⟩
    temp_c := p.temp_c.getD 0
    precip_mm := p.precip_mm.getD 0
    created_at := now
    updated_at := now }

/-- Batch `valid_clean_rows`: the Measurement candidates submitted to the upsert. -/
def vbatch (f : List RawRow) (now : Nat) : List MRow :=
  (validParsed f).map (fun p => measurementOf p now)

/-- The persistence operations issued inside the import's atomic block. -/
inductive DbOp where
  | deleteAllStaging : DbOp
  | bulkCreateStaging : List SRow → DbOp
  | upsertMeasurements : List MRow → DbOp
deriving DecidableEq

def applyOp (st : DBState) : DbOp → DBState
  | DbOp.deleteAllStaging => { st with staging := [] }
  | DbOp.bulkCreateStaging rows => { st with staging := st.staging ++ rows }
  | DbOp.upsertMeasurements rows => { st with measurements := upsertBatch st.measurements rows }

/-- The operation sequence of `import_csv`'s `transaction.atomic()` block:
truncate staging, bulk-create the staged batch (guarded by `if staging_rows:`),
bulk-upsert the valid batch (guarded by `if valid_clean_rows:`). -/
def importOps (f : List RawRow) (now : Nat) : List DbOp :=
  [DbOp.deleteAllStaging]
    ++ (if (stagedBatch f now).isEmpty then [] else [DbOp.bulkCreateStaging (stagedBatch f now)])
    ++ (if (vbatch f now).isEmpty then [] else [DbOp.upsertMeasurements (vbatch f now)])

/-- Modelled from the spec: `transaction.atomic()` — the block's operations
all commit, or, on a persistence failure before operation `k` completes
(`failAt = some k` with `k` inside the block), none do and the prior state is
restored. (The transaction mechanism itself is framework code outside `src/`.) -/
def runAtomic (st : DBState) (ops : List DbOp) : Option Nat → DBState
  | none => ops.foldl applyOp st
  | some k => if k < ops.length then st else ops.foldl applyOp st

structure Counts where
  rows_in_file : Nat
  rows_valid : Nat
  rows_invalid : Nat
  rows_upserted : Nat
deriving DecidableEq

/-- Model of `views.import_csv` on a successfully decoded file with the required
header: the committed state and the returned counts. -/
def import_csv (f : List RawRow) (now : Nat) (st : DBState) : DBState × Counts :=
  let st' := runAtomic st (importOps f now) none
  let rows_in_file := f.length
  let rows_valid := (validParsed f).length
  let rows_invalid := rows_in_file - rows_valid
  let rows_upserted := if (vbatch f now).isEmpty then 0 else (vbatch f now).length
  (st', ⟨rows_in_file, rows_valid, rows_invalid, rows_upserted⟩)

/-! ## Quality Report Engine: `views._out_of_range_counts`

The function runs over either table's queryset; rows are viewed through their
(possibly null) `temp_c` / `precip_mm` columns. The source returns the dict
`{"temp_c_lt_-90": …, "temp_c_gt_60": …, "precip_mm_lt_0": …}`; the structure
fields below carry those JSON keys (with `-90` spelled `neg90`). -/

/-- A row as seen by the quality queries: nullable numeric columns. -/
structure QRow where
  temp_c : Option ℚ
  precip_mm : Option ℚ
deriving DecidableEq

/-- View a Measurement row through the quality queries' columns. -/
def qrowOfM (m : MRow) : QRow :=
  ⟨some m.temp_c, some m.precip_mm⟩

/-- Counters `qs.filter(temp_c__isnull=False, temp_c__lt=-90).count()` and friends. -/
structure OutOfRangeCounts where
  temp_c_lt_neg90 : Nat
  temp_c_gt_60 : Nat
  precip_mm_lt_0 : Nat
deriving DecidableEq

def out_of_range_counts (qs : List QRow) : OutOfRangeCounts where
  temp_c_lt_neg90 :=
    qs.countP (fun r => match r.temp_c with
      | some t => decide (t < -90)
      | none => false)
  temp_c_gt_60 :=
    qs.countP (fun r => match r.temp_c with
      | some t => decide (t > 60)
      | none => false)
  precip_mm_lt_0 :=
    qs.countP (fun r => match r.precip_mm with
      | some p => decide (p < 0)
      | none => false)

/-! ## Summary Aggregator: `views.metrics_summary` -/

/-- Strict lexicographic order on calendar dates (`date_from > date_to` etc.). -/
def dateLt (a b : CalDate) : Bool :=
  a.year < b.year
    || (a.year = b.year && (a.month < b.month
        || (a.month = b.month && a.day < b.day)))

/-- Non-strict order on calendar dates (`date__gte` / `date__lte` bounds). -/
def dateLe (a b : CalDate) : Bool :=
  dateLt a b || a = b

/-- The success payload of `GET /api/metrics/summary/`. -/
structure SummaryOut where
  station_id : String
  date_from : CalDate
  date_to : CalDate
  days : Nat
  avg_temp_c : Option ℚ
  total_precip_mm : Option ℚ
deriving DecidableEq

def isError {α : Type} (r : Except String α) : Bool :=
  match r with
  | Except.error _ => true
  | Except.ok _ => false

/-- Model of `views.metrics_summary` over the Measurement table: parameter checks in
source order (station, `from`, `to`, order), then `days = qs.count()`,
`avg_temp_c = Avg("temp_c")`, `total_precip_mm = Sum("precip_mm")`
(both SQL aggregates are `NULL` over an empty queryset). -/
def metrics_summary (station_id_q from_q to_q : Option String)
    (tbl : List MRow) : Except String SummaryOut :=
  let station_id := pystrip (station_id_q.getD "")
  match parse_iso_date from_q, parse_iso_date to_q with
  | mdf, mdt =>
    if station_id = "" then
      Except.error "Missing required query param: station_id"
    else
      match mdf with
      | none => Except.error "Missing or invalid required query param: from (YYYY-MM-DD)"
      | some date_from =>
        match mdt with
        | none => Except.error "Missing or invalid required query param: to (YYYY-MM-DD)"
        | some date_to =>
          if dateLt date_to date_from then
            Except.error "from must be <= to."
          else
            let qs := tbl.filter (fun m =>
              m.station_id = station_id
                && dateLe date_from m.date && dateLe m.date date_to)
            let avg_temp_c : Option ℚ :=
              if qs.isEmpty then none
              else some ((qs.map (fun m => m.temp_c)).sum / (qs.length : ℚ))
            let total_precip_mm : Option ℚ :=
              if qs.isEmpty then none
              else some ((qs.map (fun m => m.precip_mm)).sum)
            Except.ok
              { station_id := station_id
                date_from := date_from
                date_to := date_to
                days := qs.length
                avg_temp_c := avg_temp_c
                total_precip_mm := total_precip_mm }

/-! ## Derived views used by the statements -/

/-- Does any row of the batch carry natural key `k`? -/
def hasKeyP (ps : List ParsedRow) (k : String × CalDate) : Bool :=
  ps.any (fun p => pkey p = k)

/-- The value columns of the LAST batch row with key `k` (the winner of a
last-write-wins upsert). -/
def lastTP (rs : List MRow) (k : String × CalDate) : Option (ℚ × ℚ) :=
  (rs.reverse.find? (fun m => mkey m = k)).map (fun m => (m.temp_c, m.precip_mm))

/-- The value columns of the LAST valid parsed row with key `k` in a file. -/
def lastTPP (ps : List ParsedRow) (k : String × CalDate) : Option (ℚ × ℚ) :=
  (ps.reverse.find? (fun p => pkey p = k)).map
    (fun p => (p.temp_c.getD 0, p.precip_mm.getD 0))

/-! ## Concrete data for the closed instances -/

/-- A 70-character station identifier — longer than the 64-character column
declared on `Measurement.station_id`. -/
def sid70 : String :=
  "AAAAAAAAAAAAAAAAAAAAAAAAAAAAAAAAAAAAAAAAAAAAAAAAAAAAAAAAAAAAAAAAAAAAAA"

/-- A fully valid raw CSV row carrying `sid70`. -/
def rawLong : RawRow :=
  ⟨some "2026-01-01", some sid70, some "10", some "0"⟩

/-- A valid raw CSV row for station `A`, `2026-01-01`, temp 55, precip 5. -/
def rawA55 : RawRow :=
  ⟨some "2026-01-01", some "A", some "55", some "5"⟩

/-- A stored Measurement row for station `A`, `2026-01-01` with
`temp_c = 10`, `precip_mm = 0`, written at clock 0. -/
def mA10 : MRow :=
  ⟨"A", ⟨2026, 1, 1⟩, 10, 0, 0, 0⟩

/-- A database holding exactly `mA10`. -/
def stA : DBState :=
  ⟨[mA10], []⟩

/-- A quality-report row with `temp_c = −70` and `precip_mm = 600`: the
temperature is below −60 and the precipitation above 500, both non-null. -/
def qOut : QRow :=
  ⟨some (-70), some 600⟩

/-! # Theorems -/

/-- Claim C1: `_validate_row` declares a row valid iff the date is present, the
station_id is present and non-empty after trimming, `temp_c` is present and in
the inclusive range [−60, 60], and `precip_mm` is present and in the inclusive
range [0, 500]; each violated rule contributes its rule name to the returned
error list. -/
theorem validate_row_spec (d : Option CalDate) (sid : Option String) (t p : Option ℚ) :
    ((validate_row d sid t p).1 = true ↔
      (d.isSome = true
        ∧ (∃ s, sid = some s ∧ pystrip s ≠ "")
        ∧ (∃ x, t = some x ∧ (-60 : ℚ) ≤ x ∧ x ≤ 60)
        ∧ (∃ y, p = some y ∧ (0 : ℚ) ≤ y ∧ y ≤ 500)))
    ∧ (d = none → "invalid_date" ∈ (validate_row d sid t p).2)
    ∧ ((sid = none ∨ ∃ s, sid = some s ∧ pystrip s = "") →
        "missing_station_id" ∈ (validate_row d sid t p).2)
    ∧ (t = none → "invalid_temp_c" ∈ (validate_row d sid t p).2)
    ∧ (∀ x, t = some x → (x < -60 ∨ 60 < x) →
        "temp_c_out_of_range" ∈ (validate_row d sid t p).2)
    ∧ (p = none → "invalid_precip_mm" ∈ (validate_row d sid t p).2)
    ∧ (∀ y, p = some y → (y < 0 ∨ 500 < y) →
        "precip_mm_out_of_range" ∈ (validate_row d sid t p).2) := by
  cases d <;> cases sid <;> cases t <;> cases p <;>
    simp only [validate_row, TEMP_MIN_C, TEMP_MAX_C, PRECIP_MIN_MM, PRECIP_MAX_MM,
      List.isEmpty_iff, List.append_eq_nil, List.mem_append, List.nil_append,
      List.append_nil] <;>
    (try split_ifs) <;>
    simp_all [not_or, not_lt] <;>
    (try intros) <;>
    (try casesm* _ ∨ _) <;>
    first
    | tauto
    | linarith

/-- Closed instance of `validate_row_spec`: the hypotheses of its conditional
conjuncts are dischargeable on concrete rows. -/
theorem validate_row_spec_witness :
    "invalid_date" ∈ (validate_row none (some "A") (some 10) (some 0)).2
    ∧ "temp_c_out_of_range" ∈
        (validate_row (some ⟨2026, 1, 1⟩) (some "A") (some 999) (some 0)).2
    ∧ (validate_row (some ⟨2026, 1, 1⟩) (some "A") (some 10) (some 0)).1 = true := by
  refine ⟨(validate_row_spec none (some "A") (some 10) (some 0)).2.1 rfl,
    (validate_row_spec (some ⟨2026, 1, 1⟩) (some "A") (some 999) (some 0)).2.2.2.2.1
      999 rfl (Or.inr (by norm_num)), ?_⟩
  exact (validate_row_spec (some ⟨2026, 1, 1⟩) (some "A") (some 10) (some 0)).1.mpr
    ⟨rfl, ⟨"A", rfl, by decide⟩, ⟨10, rfl, by norm_num, by norm_num⟩,
      ⟨0, rfl, by norm_num, by norm_num⟩⟩

/-- Claim C8: the row parser is total and never raises (all parsing functions
are total Lean functions into `Option`; CPython exceptions are caught in the
source and mapped to `None`). A date cell only ever parses to a genuine
calendar date — any cell not matching the `YYYY-MM-DD` calendar-date format
yields `none`; a blank cell for `temp_c`/`precip_mm` (or for the date)
normalizes to absent, as does a missing cell; and the station_id is trimmed,
with the empty string normalizing to absent. -/
theorem parser_never_raises (s : String) :
    (∀ d, parse_date (some s) = some d → validYMD d.year d.month d.day = true)
    ∧ (pystrip s = "" → parse_date (some s) = none ∧ parse_float (some s) = none)
    ∧ (parse_date none = none ∧ parse_float none = none ∧ normStation none = none)
    ∧ normStation (some s) = (if pystrip s = "" then none else some (pystrip s)) := by
  refine ⟨?_, ?_, ⟨rfl, rfl, ?_⟩, ?_⟩
  · intro d hd
    simp only [parse_date] at hd
    split at hd
    · exact absurd hd (by simp)
    · simp only [strptimeYMD] at hd
      repeat' split at hd
      all_goals
        first
        | (cases hd; assumption)
        | simp_all
  · intro h
    exact ⟨by simp [parse_date, h], by simp [parse_float, h]⟩
  · simp [normStation, pystrip, trimChars]
  · simp [normStation]

/-- Closed instance of `parser_never_raises`: a leap-day date parses to a
valid calendar date, and a whitespace-only cell normalizes to absent. -/
theorem parser_never_raises_witness :
    validYMD 2024 2 29 = true
    ∧ parse_date (some " ") = none
    ∧ parse_float (some " ") = none := by
  refine ⟨(parser_never_raises "2024-02-29").1 ⟨2024, 2, 29⟩ (by decide), ?_, ?_⟩
  · exact ((parser_never_raises " ").2.1 (by decide)).1
  · exact ((parser_never_raises " ").2.1 (by decide)).2

/-- Claim C3 (failing input): a table with a single row whose non-null
`temp_c = −70` is below −60 and whose non-null `precip_mm = 600` is above 500.
The canonical rule (and the function's own docstring, which says it mirrors
the import validation) calls both out of range, yet `_out_of_range_counts`
reports every bucket it has as 0 — its temperature bucket tests `< −90`
instead of `< −60`, and it has no `precip_mm > 500` bucket at all. -/
theorem out_of_range_counts_at_failing_input :
    out_of_range_counts [qOut] = ⟨0, 0, 0⟩
    ∧ qOut.temp_c = some (-70) ∧ ((-70 : ℚ) < -60)
    ∧ qOut.precip_mm = some 600 ∧ ((600 : ℚ) > 500) := by
  exact ⟨by decide, rfl, by norm_num, rfl, by norm_num⟩

/-- The committed state of one import: staging replaced by the staged batch,
measurements upserted with the valid batch (the source's `if staging_rows:` /
`if valid_clean_rows:` guards skip no-op bulk calls and do not change this). -/
theorem import_csv_state (f : List RawRow) (now : Nat) (st : DBState) :
    (import_csv f now st).1
      = ⟨upsertBatch st.measurements (vbatch f now), stagedBatch f now⟩ := by
  simp only [import_csv, runAtomic, importOps]
  by_cases h1 : (stagedBatch f now).isEmpty
    <;> by_cases h2 : (vbatch f now).isEmpty
    <;> simp_all [List.isEmpty_iff, applyOp, upsertBatch]

/-- Claim C4: the returned counts of a successful import satisfy
`rows_in_file = |file|`, `rows_valid = |valid rows|`,
`rows_valid ≤ rows_in_file`, `rows_invalid = rows_in_file − rows_valid`, and
`rows_upserted` equals the size of the batch submitted to the upsert — every
valid row, repeats of one (station, date) key included — which equals
`rows_valid`. -/
theorem import_counts (f : List RawRow) (now : Nat) (st : DBState) :
    ((import_csv f now st).2).rows_in_file = f.length
    ∧ ((import_csv f now st).2).rows_valid = (validParsed f).length
    ∧ ((import_csv f now st).2).rows_valid ≤ ((import_csv f now st).2).rows_in_file
    ∧ ((import_csv f now st).2).rows_invalid
        = ((import_csv f now st).2).rows_in_file - ((import_csv f now st).2).rows_valid
    ∧ ((import_csv f now st).2).rows_upserted = (vbatch f now).length
    ∧ ((import_csv f now st).2).rows_upserted = ((import_csv f now st).2).rows_valid := by
  have hlen : (vbatch f now).length = (validParsed f).length := by
    simp [vbatch]
  have hle : (validParsed f).length ≤ f.length := by
    calc (validParsed f).length ≤ (f.map parseRow).length := List.length_filter_le ..
    _ = f.length := List.length_map ..
  refine ⟨rfl, rfl, hle, rfl, ?_, ?_⟩
    <;> simp only [import_csv]
    <;> by_cases h : (vbatch f now).isEmpty
    <;> simp_all [List.isEmpty_iff]

/-- Claim C7: after any import of a file with `N` data rows, the staging table
holds exactly the `N` freshly staged rows — one per input row, valid or not —
and its contents are independent of whatever staging rows existed before
(the table is truncated at the start of the import's atomic block). -/
theorem staging_truncate_mirror (f : List RawRow) (now : Nat) (st : DBState) :
    (import_csv f now st).1.staging = stagedBatch f now
    ∧ (import_csv f now st).1.staging.length = f.length
    ∧ ∀ st' : DBState, (import_csv f now st').1.staging = (import_csv f now st).1.staging := by
  have h := import_csv_state f now st
  refine ⟨by rw [h], by rw [h]; simp [stagedBatch], ?_⟩
  intro st'
  rw [h, import_csv_state f now st']

/-- Claim C5: the staging truncate-and-write and the measurement upsert of
one import are issued inside a single atomic block; a persistence failure at any
operation of that block rolls the whole import back, leaving both the prior
Measurement state and the pre-import staging snapshot unchanged, while the
failure-free run commits exactly the import's new state. -/
theorem import_all_or_nothing (f : List RawRow) (now : Nat) (st : DBState) (k : Nat)
    (hk : k < (importOps f now).length) :
    (runAtomic st (importOps f now) (some k)).measurements = st.measurements
    ∧ (runAtomic st (importOps f now) (some k)).staging = st.staging
    ∧ runAtomic st (importOps f now) none = (import_csv f now st).1 := by
  simp [runAtomic, hk, import_csv]

/-- Closed instance of `import_all_or_nothing`: a failure during the very
first operation (the staging truncate) leaves the stored measurement intact. -/
theorem import_all_or_nothing_witness :
    0 < (importOps [] 0).length
    ∧ (runAtomic stA (importOps [] 0) (some 0)).measurements = [mA10] := by
  exact ⟨by decide, (import_all_or_nothing [] 0 stA 0 (by decide)).1⟩

/-! ## Upsert Engine lemmas -/

theorem mkey_setVals (m r : MRow) : mkey (setVals m r) = mkey m := rfl

theorem mkey_updateIf (r m : MRow) :
    mkey (if mkey m = mkey r then setVals m r else m) = mkey m := by
  split <;> rfl

theorem updatedAt_updateIf (r m : MRow) :
    (if mkey m = mkey r then setVals m r else m).updated_at = m.updated_at := by
  split <;> rfl

theorem hasKey_upsertOne (t : List MRow) (r : MRow) (k : String × CalDate) :
    hasKey (upsertOne t r) k = (hasKey t k || decide (mkey r = k)) := by
  simp only [hasKey, upsertOne]
  split
  · rename_i h
    rw [List.any_map]
    have hc : ((fun m => decide (mkey m = k)) ∘
        fun m => if mkey m = mkey r then setVals m r else m)
        = fun m => decide (mkey m = k) := by
      funext m
      simp [Function.comp, mkey_updateIf]
    rw [hc]
    by_cases hk : mkey r = k
    · subst hk
      simp_all
    · simp [hk]
  · simp

theorem hasKey_upsertOne_iff (t : List MRow) (r : MRow) (k : String × CalDate) :
    hasKey (upsertOne t r) k = true ↔ (hasKey t k = true ∨ mkey r = k) := by
  rw [hasKey_upsertOne]
  simp

theorem hasKey_upsertBatch (t rs : List MRow) (k : String × CalDate) :
    hasKey (upsertBatch t rs) k = true ↔ (hasKey t k = true ∨ hasKey rs k = true) := by
  induction rs generalizing t with
  | nil => simp [upsertBatch, hasKey]
  | cons r rs ih =>
    show hasKey (upsertBatch (upsertOne t r) rs) k = true ↔ _
    rw [ih, hasKey_upsertOne_iff]
    simp only [hasKey, List.any_cons, Bool.or_eq_true, decide_eq_true_eq]
    tauto

theorem lookupRow_upsertOne_ne (t : List MRow) (r : MRow) (k : String × CalDate)
    (h : mkey r ≠ k) : lookupRow (upsertOne t r) k = lookupRow t k := by
  simp only [lookupRow, upsertOne]
  split
  · rw [List.find?_map]
    have hc : ((fun m => decide (mkey m = k)) ∘
        fun m => if mkey m = mkey r then setVals m r else m)
        = fun m => decide (mkey m = k) := by
      funext m
      simp [Function.comp, mkey_updateIf]
    rw [hc]
    cases hf : t.find? (fun m => decide (mkey m = k)) with
    | none => rfl
    | some m =>
      have hm : mkey m = k := by simpa using List.find?_some hf
      have hmr : ¬(mkey m = mkey r) := fun hh => h (by rw [← hh, hm])
      simp [hmr]
  · rw [List.find?_append]
    have hr : ([r].find? fun m => decide (mkey m = k)) = none := by
      simp [List.find?, h]
    simp [hr]

theorem lookupRow_upsertBatch_ne (t rs : List MRow) (k : String × CalDate)
    (h : hasKey rs k = false) : lookupRow (upsertBatch t rs) k = lookupRow t k := by
  induction rs generalizing t with
  | nil => rfl
  | cons r rs ih =>
    simp only [hasKey, List.any_cons, Bool.or_eq_false_iff] at h
    show lookupRow (upsertBatch (upsertOne t r) rs) k = _
    rw [ih (upsertOne t r) (by simpa [hasKey] using h.2),
      lookupRow_upsertOne_ne t r k (by simpa using h.1)]

theorem lookupTP_upsertOne_self (t : List MRow) (r : MRow) :
    lookupTP (upsertOne t r) (mkey r) = some (r.temp_c, r.precip_mm) := by
  simp only [lookupTP, lookupRow, upsertOne]
  split
  · rename_i h
    rw [List.find?_map]
    have hc : ((fun m => decide (mkey m = mkey r)) ∘
        fun m => if mkey m = mkey r then setVals m r else m)
        = fun m => decide (mkey m = mkey r) := by
      funext m
      simp [Function.comp, mkey_updateIf]
    rw [hc]
    have hs : (t.find? fun m => decide (mkey m = mkey r)).isSome := by
      rw [List.find?_isSome]
      simpa [hasKey] using List.any_eq_true.mp h
    cases hf : t.find? (fun m => decide (mkey m = mkey r)) with
    | none => simp [hf] at hs
    | some m =>
      have hm : mkey m = mkey r := by simpa using List.find?_some hf
      simp [hm, setVals]
  · rename_i h
    rw [List.find?_append]
    have hn : (t.find? fun m => decide (mkey m = mkey r)) = none := by
      rw [List.find?_eq_none]
      intro m hm
      simp only [decide_eq_true_eq]
      intro hmk
      exact h (List.any_eq_true.mpr ⟨m, hm, by simp [hmk]⟩)
    simp [hn, List.find?]

theorem lastTP_cons_of_hasKey (rs : List MRow) (r : MRow) (k : String × CalDate)
    (h : hasKey rs k = true) : lastTP (r :: rs) k = lastTP rs k := by
  simp only [lastTP, List.reverse_cons, List.find?_append]
  have hs : (rs.reverse.find? fun m => decide (mkey m = k)).isSome := by
    rw [List.find?_isSome]
    obtain ⟨m, hm, hmk⟩ := List.any_eq_true.mp h
    exact ⟨m, List.mem_reverse.mpr hm, hmk⟩
  cases hf : rs.reverse.find? (fun m => decide (mkey m = k)) with
  | none => simp [hf] at hs
  | some m => simp

theorem lastTP_cons_of_self (rs : List MRow) (r : MRow) (k : String × CalDate)
    (h : hasKey rs k = false) (hr : mkey r = k) :
    lastTP (r :: rs) k = some (r.temp_c, r.precip_mm) := by
  simp only [lastTP, List.reverse_cons, List.find?_append]
  have hn : (rs.reverse.find? fun m => decide (mkey m = k)) = none := by
    rw [List.find?_eq_none]
    intro m hm
    have := List.any_eq_false.mp h m (List.mem_reverse.mp hm)
    simpa using this
  simp [hn, List.find?, hr]

theorem lookupTP_upsertBatch_of_hasKey (t rs : List MRow) (k : String × CalDate)
    (h : hasKey rs k = true) : lookupTP (upsertBatch t rs) k = lastTP rs k := by
  induction rs generalizing t with
  | nil => simp [hasKey] at h
  | cons r rs ih =>
    show lookupTP (upsertBatch (upsertOne t r) rs) k = _
    by_cases hk : hasKey rs k = true
    · rw [ih (upsertOne t r) hk, lastTP_cons_of_hasKey rs r k hk]
    · have hf : hasKey rs k = false := Bool.eq_false_iff.mpr hk
      have hr : mkey r = k := by
        simp only [hasKey, List.any_cons, Bool.or_eq_true] at h
        rcases h with h' | h'
        · exact of_decide_eq_true h'
        · exact absurd h' hk
      subst hr
      have h1 : lookupTP (upsertBatch (upsertOne t r) rs) (mkey r)
          = lookupTP (upsertOne t r) (mkey r) := by
        simp only [lookupTP]
        rw [lookupRow_upsertBatch_ne (upsertOne t r) rs (mkey r) hf]
      rw [h1, lookupTP_upsertOne_self, lastTP_cons_of_self rs r (mkey r) hf rfl]

theorem length_upsertOne_of_hasKey (t : List MRow) (r : MRow)
    (h : hasKey t (mkey r) = true) : (upsertOne t r).length = t.length := by
  simp only [upsertOne]
  rw [if_pos (by simpa [hasKey] using h)]
  exact List.length_map ..

theorem length_upsertBatch (t rs : List MRow)
    (h : ∀ r ∈ rs, hasKey t (mkey r) = true) :
    (upsertBatch t rs).length = t.length := by
  induction rs generalizing t with
  | nil => rfl
  | cons r rs ih =>
    show (upsertBatch (upsertOne t r) rs).length = _
    rw [ih (upsertOne t r) fun r' hr' =>
        (hasKey_upsertOne_iff t r (mkey r')).mpr (Or.inl (h r' (List.mem_cons_of_mem r hr'))),
      length_upsertOne_of_hasKey t r (h r (List.mem_cons_self ..))]

theorem updatedAt_upsertOne (t : List MRow) (r : MRow) (k : String × CalDate)
    (h : hasKey t k = true) :
    (lookupRow (upsertOne t r) k).map (fun m => m.updated_at)
      = (lookupRow t k).map (fun m => m.updated_at) := by
  by_cases hr : mkey r = k
  · subst hr
    simp only [lookupRow, upsertOne]
    rw [if_pos (by simpa [hasKey] using h), List.find?_map]
    have hc : ((fun m => decide (mkey m = mkey r)) ∘
        fun m => if mkey m = mkey r then setVals m r else m)
        = fun m => decide (mkey m = mkey r) := by
      funext m
      simp [Function.comp, mkey_updateIf]
    rw [hc]
    cases hf : t.find? (fun m => decide (mkey m = mkey r)) with
    | none => rfl
    | some m => simp [updatedAt_updateIf]
  · rw [lookupRow_upsertOne_ne t r k hr]

theorem updatedAt_upsertBatch (t rs : List MRow) (k : String × CalDate)
    (h : hasKey t k = true) :
    (lookupRow (upsertBatch t rs) k).map (fun m => m.updated_at)
      = (lookupRow t k).map (fun m => m.updated_at) := by
  induction rs generalizing t with
  | nil => rfl
  | cons r rs ih =>
    show (lookupRow (upsertBatch (upsertOne t r) rs) k).map _ = _
    rw [ih (upsertOne t r) ((hasKey_upsertOne_iff t r k).mpr (Or.inl h)),
      updatedAt_upsertOne t r k h]

theorem nodup_keys_upsertOne (t : List MRow) (r : MRow)
    (h : (t.map mkey).Nodup) : ((upsertOne t r).map mkey).Nodup := by
  simp only [upsertOne]
  split
  · rw [List.map_map]
    have hc : (mkey ∘ fun m => if mkey m = mkey r then setVals m r else m) = mkey := by
      funext m
      exact mkey_updateIf r m
    rw [hc]
    exact h
  · rename_i hf
    rw [List.map_append]
    rw [List.nodup_append]
    refine ⟨h, List.nodup_singleton _, ?_⟩
    intro a ha
    simp only [List.map_cons, List.map_nil, List.mem_singleton]
    intro hb
    obtain ⟨m, hm, rfl⟩ := List.mem_map.mp ha
    exact hf (List.any_eq_true.mpr ⟨m, hm, by simp [hb]⟩)

theorem nodup_keys_upsertBatch (t rs : List MRow)
    (h : (t.map mkey).Nodup) : ((upsertBatch t rs).map mkey).Nodup := by
  induction rs generalizing t with
  | nil => exact h
  | cons r rs ih => exact ih (upsertOne t r) (nodup_keys_upsertOne t r h)

/-! ## Transport between the parsed batch and the Measurement batch -/

theorem mkey_measurementOf (p : ParsedRow) (n : Nat) :
    mkey (measurementOf p n) = pkey p := rfl

theorem any_map_comp {α β : Type} (f : α → β) (l : List α) (p : β → Bool) :
    (l.map f).any p = l.any (p ∘ f) := by
  induction l with
  | nil => rfl
  | cons a l ih =>
    simp only [List.map_cons, List.any_cons, ih]
    rfl

theorem keyPred_comp_measurementOf (n : Nat) (k : String × CalDate) :
    ((fun m => decide (mkey m = k)) ∘ fun p => measurementOf p n)
      = fun p => decide (pkey p = k) := rfl

theorem hasKey_vbatch (f : List RawRow) (n : Nat) (k : String × CalDate) :
    hasKey (vbatch f n) k = hasKeyP (validParsed f) k := by
  simp only [hasKey, vbatch, hasKeyP]
  rw [any_map_comp, keyPred_comp_measurementOf]

theorem lastTP_vbatch (f : List RawRow) (n : Nat) (k : String × CalDate) :
    lastTP (vbatch f n) k = lastTPP (validParsed f) k := by
  simp only [lastTP, vbatch, lastTPP]
  rw [← List.map_reverse, List.find?_map, keyPred_comp_measurementOf, Option.map_map]
  cases (validParsed f).reverse.find? (fun p => decide (pkey p = k)) <;> rfl

/-- Claim C2: importing the same file twice in succession leaves the Measurement
table with exactly the contents of a single import — the same row count and
the same value columns at every (station_id, date) key — and a single import
never introduces duplicate natural keys, because the upsert inserts or
updates by (station_id, date). -/
theorem import_idempotent (f : List RawRow) (n1 n2 : Nat) (st : DBState) :
    ((import_csv f n2 (import_csv f n1 st).1).1.measurements.length
        = (import_csv f n1 st).1.measurements.length)
    ∧ (∀ k, lookupTP (import_csv f n2 (import_csv f n1 st).1).1.measurements k
        = lookupTP (import_csv f n1 st).1.measurements k)
    ∧ ((st.measurements.map mkey).Nodup →
        ((import_csv f n1 st).1.measurements.map mkey).Nodup) := by
  have hX : (import_csv f n1 st).1.measurements
      = upsertBatch st.measurements (vbatch f n1) := by
    rw [import_csv_state]
  have hY : (import_csv f n2 (import_csv f n1 st).1).1.measurements
      = upsertBatch (upsertBatch st.measurements (vbatch f n1)) (vbatch f n2) := by
    rw [import_csv_state, hX]
  have hkey : ∀ r ∈ vbatch f n2,
      hasKey (upsertBatch st.measurements (vbatch f n1)) (mkey r) = true := by
    intro r hr
    obtain ⟨p, hp, rfl⟩ := List.mem_map.mp hr
    rw [mkey_measurementOf]
    exact (hasKey_upsertBatch ..).mpr (Or.inr (by
      rw [hasKey_vbatch]
      exact List.any_eq_true.mpr ⟨p, hp, by simp⟩))
  refine ⟨?_, ?_, ?_⟩
  · rw [hY, hX]
    exact length_upsertBatch _ _ hkey
  · intro k
    rw [hY, hX]
    by_cases hk : hasKeyP (validParsed f) k = true
    · rw [lookupTP_upsertBatch_of_hasKey _ _ _ (by rw [hasKey_vbatch]; exact hk),
        lookupTP_upsertBatch_of_hasKey _ _ _ (by rw [hasKey_vbatch]; exact hk),
        lastTP_vbatch, lastTP_vbatch]
    · have hk2 : hasKey (vbatch f n2) k = false := by
        rw [hasKey_vbatch]
        exact Bool.eq_false_iff.mpr hk
      simp only [lookupTP]
      rw [lookupRow_upsertBatch_ne _ _ _ hk2]
  · intro h
    rw [hX]
    exact nodup_keys_upsertBatch _ _ h

/-- Closed instance of `import_idempotent`: a concrete one-row file imported
twice into an empty database, with the no-duplicate-keys hypothesis
discharged on the empty initial table. -/
theorem import_idempotent_witness :
    ((import_csv [rawA55] 1 ⟨[], []⟩).1.measurements.map mkey).Nodup
    ∧ (import_csv [rawA55] 2 (import_csv [rawA55] 1 ⟨[], []⟩).1).1.measurements.length
        = (import_csv [rawA55] 1 ⟨[], []⟩).1.measurements.length := by
  exact ⟨(import_idempotent [rawA55] 1 2 ⟨[], []⟩).2.2 (by decide),
    (import_idempotent [rawA55] 1 2 ⟨[], []⟩).1⟩

/-- Claim C6 (as amended): when every valid row of an import hits a
(station_id, date) key already stored in Measurement, the stored rows'
`temp_c`/`precip_mm` are overwritten with the new (last-write-wins) values,
the Measurement row count is unchanged, no stored key is ever deleted by the
ingest path — but `updated_at` is NOT refreshed, because the bulk upsert's
`update_fields` list only `temp_c` and `precip_mm`. -/
theorem upsert_overwrite (f : List RawRow) (now : Nat) (st : DBState)
    (h : ∀ r ∈ vbatch f now, hasKey st.measurements (mkey r) = true) :
    (import_csv f now st).1.measurements.length = st.measurements.length
    ∧ (∀ k, hasKeyP (validParsed f) k = true →
        lookupTP (import_csv f now st).1.measurements k = lastTPP (validParsed f) k)
    ∧ (∀ k, hasKey st.measurements k = true →
        hasKey (import_csv f now st).1.measurements k = true)
    ∧ (∀ k, hasKey st.measurements k = true →
        (lookupRow (import_csv f now st).1.measurements k).map (fun m => m.updated_at)
          = (lookupRow st.measurements k).map (fun m => m.updated_at)) := by
  have hm : (import_csv f now st).1.measurements
      = upsertBatch st.measurements (vbatch f now) := by
    rw [import_csv_state]
  refine ⟨?_, ?_, ?_, ?_⟩
  · rw [hm]
    exact length_upsertBatch _ _ h
  · intro k hk
    rw [hm, lookupTP_upsertBatch_of_hasKey _ _ _ (by rw [hasKey_vbatch]; exact hk),
      lastTP_vbatch]
  · intro k hk
    rw [hm]
    exact (hasKey_upsertBatch ..).mpr (Or.inl hk)
  · intro k hk
    rw [hm]
    exact updatedAt_upsertBatch _ _ _ hk

/-- Closed instance of `upsert_overwrite`: re-importing the stored key keeps
the row count at 1, with the hypothesis discharged concretely. -/
theorem upsert_overwrite_witness :
    (∀ r ∈ vbatch [rawA55] 5, hasKey stA.measurements (mkey r) = true)
    ∧ (import_csv [rawA55] 5 stA).1.measurements.length = stA.measurements.length := by
  exact ⟨by decide, (upsert_overwrite [rawA55] 5 stA (by decide)).1⟩

/-- Claim C6 (counterexample to the claim as stated): importing, at clock 5, a
file that hits the existing key ("A", 2026-01-01) overwrites `temp_c` and
`precip_mm` (10, 0 become 55, 5), but the row's `updated_at` stays at its old
clock 0 rather than being refreshed to 5: the upsert's `update_fields` are
only `temp_c`/`precip_mm` — and the Measurement model revision actually in
use by the views has no `updated_at` column at all. -/
theorem upsert_no_updated_at_refresh :
    ((import_csv [rawA55] 5 stA).1.measurements.map
        (fun m => (m.temp_c, m.precip_mm, m.updated_at)))
      = [((55 : ℚ), (5 : ℚ), (0 : Nat))]
    ∧ (0 : Nat) ≠ 5 := by
  exact ⟨by decide, by decide⟩

/-- Claim C9: the Summary Aggregator returns a 400-equivalent error exactly when
the station_id is missing or empty after trimming, or `from` or `to` is
missing or not a valid `YYYY-MM-DD` date, or `from` > `to`; otherwise, over
the Measurement rows of that station with date in the inclusive
[`from`, `to`] window, it returns the row count, the average `temp_c` (null
exactly when the count is zero) and the sum of `precip_mm` (null exactly when
the count is zero). -/
theorem metrics_summary_spec (sq fq tq : Option String) (tbl : List MRow) :
    (isError (metrics_summary sq fq tq tbl) = true ↔
      (pystrip (sq.getD "") = ""
        ∨ parse_iso_date fq = none
        ∨ parse_iso_date tq = none
        ∨ ∃ df dt, parse_iso_date fq = some df ∧ parse_iso_date tq = some dt
            ∧ dateLt dt df = true))
    ∧ (∀ out, metrics_summary sq fq tq tbl = Except.ok out →
        ∃ df dt, parse_iso_date fq = some df ∧ parse_iso_date tq = some dt
          ∧ dateLt dt df = false
          ∧ out.station_id = pystrip (sq.getD "")
          ∧ out.days = (tbl.filter (fun m =>
              m.station_id = pystrip (sq.getD "")
                && dateLe df m.date && dateLe m.date dt)).length
          ∧ (out.days = 0 →
              out.avg_temp_c = none ∧ out.total_precip_mm = none)
          ∧ (out.days ≠ 0 →
              out.avg_temp_c = some (((tbl.filter (fun m =>
                  m.station_id = pystrip (sq.getD "")
                    && dateLe df m.date && dateLe m.date dt)).map
                    (fun m => m.temp_c)).sum / (out.days : ℚ))
              ∧ out.total_precip_mm = some ((tbl.filter (fun m =>
                  m.station_id = pystrip (sq.getD "")
                    && dateLe df m.date && dateLe m.date dt)).map
                    (fun m => m.precip_mm)).sum)) := by
  constructor
  · by_cases hs : pystrip (sq.getD "") = ""
    · simp [metrics_summary, hs, isError]
    · cases hf : parse_iso_date fq with
      | none => simp [metrics_summary, hs, hf, isError]
      | some df =>
        cases ht : parse_iso_date tq with
        | none => simp [metrics_summary, hs, hf, ht, isError]
        | some dt =>
          by_cases hlt : dateLt dt df = true
          · simp [metrics_summary, hs, hf, ht, hlt, isError]
          · simp [metrics_summary, hs, hf, ht, hlt, isError]
  · intro out hout
    by_cases hs : pystrip (sq.getD "") = ""
    · simp [metrics_summary, hs] at hout
    · cases hf : parse_iso_date fq with
      | none => simp [metrics_summary, hs, hf] at hout
      | some df =>
        cases ht : parse_iso_date tq with
        | none => simp [metrics_summary, hs, hf, ht] at hout
        | some dt =>
          by_cases hlt : dateLt dt df = true
          · simp [metrics_summary, hs, hf, ht, hlt] at hout
          · simp only [metrics_summary, hs, hf, ht, hlt, if_false,
              Bool.false_eq_true, ite_false] at hout
            refine ⟨df, dt, rfl, rfl, Bool.eq_false_iff.mpr hlt, ?_⟩
            have hout' := (Except.ok.injEq ..).mp hout
            subst hout'
            refine ⟨rfl, rfl, ?_, ?_⟩
            · intro hz
              have he : (tbl.filter (fun m =>
                  m.station_id = pystrip (sq.getD "")
                    && dateLe df m.date && dateLe m.date dt)).isEmpty = true := by
                rw [List.isEmpty_iff, ← List.length_eq_zero]
                exact hz
              simp [he]
            · intro hz
              have he : (tbl.filter (fun m =>
                  m.station_id = pystrip (sq.getD "")
                    && dateLe df m.date && dateLe m.date dt)).isEmpty = false := by
                rw [Bool.eq_false_iff]
                rw [Ne, List.isEmpty_iff, ← List.length_eq_zero]
                exact hz
              simp [he]

/-- Closed instance of `metrics_summary_spec`: a missing station_id is
rejected, and a well-formed query over an empty table returns zero days with
null aggregates. -/
theorem metrics_summary_spec_witness :
    isError (metrics_summary none (some "2026-01-01") (some "2026-01-02")
        ([] : List MRow)) = true
    ∧ metrics_summary (some "A") (some "2026-01-01") (some "2026-01-02")
        ([] : List MRow)
        = Except.ok ⟨"A", ⟨2026, 1, 1⟩, ⟨2026, 1, 2⟩, 0, none, none⟩
    ∧ (none : Option ℚ) = none ∧ (none : Option ℚ) = none := by
  refine ⟨(metrics_summary_spec none (some "2026-01-01") (some "2026-01-02")
      []).1.mpr (Or.inl (by decide)), by rfl, ?_⟩
  obtain ⟨df, dt, h1, h2, h3, h4, h5, h6, h7⟩ :=
    (metrics_summary_spec (some "A") (some "2026-01-01") (some "2026-01-02") []).2
      ⟨"A", ⟨2026, 1, 1⟩, ⟨2026, 1, 2⟩, 0, none, none⟩ (by rfl)
  exact h6 rfl

/-- Claim C10: row validation imposes no length limit on station_id — whenever
the station_id trims to a non-empty string, the station rule never fires,
regardless of length; such a row with in-range numeric fields is fully valid;
and every valid row of a file is submitted to the upsert batch. The closed
instance exercises this with a 70-character station_id, longer than the
64-character column declared on `Measurement.station_id`. -/
theorem station_id_no_length_limit (sid : String) (h : pystrip sid ≠ "") :
    (∀ d t p, "missing_station_id" ∉ (validate_row d (some sid) t p).2)
    ∧ (∀ (dd : CalDate) (tt pp : ℚ),
        (-60 : ℚ) ≤ tt → tt ≤ 60 → (0 : ℚ) ≤ pp → pp ≤ 500 →
        (validate_row (some dd) (some sid) (some tt) (some pp)).1 = true)
    ∧ (∀ (r : RawRow) (f : List RawRow) (now : Nat), r ∈ f →
        isValidRowP (parseRow r) = true →
        measurementOf (parseRow r) now ∈ vbatch f now) := by
  refine ⟨?_, ?_, ?_⟩
  · intro d t p
    cases d <;> cases t <;> cases p <;>
      simp only [validate_row, if_neg h] <;>
      (try split_ifs) <;>
      decide
  · intro dd tt pp h1 h2 h3 h4
    have hT : ¬(tt < TEMP_MIN_C ∨ tt > TEMP_MAX_C) := by
      simp only [TEMP_MIN_C, TEMP_MAX_C, not_or, not_lt]
      exact ⟨h1, h2⟩
    have hP : ¬(pp < PRECIP_MIN_MM ∨ pp > PRECIP_MAX_MM) := by
      simp only [PRECIP_MIN_MM, PRECIP_MAX_MM, not_or, not_lt]
      exact ⟨h3, h4⟩
    simp [validate_row, h, hT, hP]
  · intro r f now hr hv
    exact List.mem_map_of_mem _
      (List.mem_filter.mpr ⟨List.mem_map_of_mem _ hr, hv⟩)

/-- Closed instance of `station_id_no_length_limit` at the 70-character
station identifier `sid70`. -/
theorem station_id_no_length_limit_witness :
    64 < sid70.length
    ∧ "missing_station_id" ∉
        (validate_row (some ⟨2026, 1, 1⟩) (some sid70) (some 10) (some 0)).2
    ∧ (validate_row (some ⟨2026, 1, 1⟩) (some sid70) (some 10) (some 0)).1 = true
    ∧ measurementOf (parseRow rawLong) 0 ∈ vbatch [rawLong] 0 := by
  refine ⟨by decide,
    (station_id_no_length_limit sid70 (by decide)).1 (some ⟨2026, 1, 1⟩) (some 10) (some 0),
    (station_id_no_length_limit sid70 (by decide)).2.1 ⟨2026, 1, 1⟩ 10 0
      (by norm_num) (by norm_num) (by norm_num) (by norm_num),
    (station_id_no_length_limit sid70 (by decide)).2.2 rawLong [rawLong] 0
      (by simp) (by decide)⟩

end MDP
